import Mathlib

/-!
Shallow embedding of `src/backend/build_graph.py` (uw-cs-collab-graph).

The script builds a weighted coauthorship graph from the Semantic Scholar
API.  We embed it as pure Lean functions:

* the HTTP transport is an oracle `att : Nat → Option (S2Resp α)`: the
  value at attempt index `n` is `none` when the `n`-th GET raises or
  returns a non-200 status, and `some r` when it returns 200 with body
  `r`;
* JSON response bodies are modelled by `S2Resp`: the optional `"data"`
  key together with a flag recording whether the dict has further keys
  (Python truthiness of a dict is non-emptiness, and the code tests
  `if not data`);
* Python dicts used as ordered maps (`uw_author_ids`, `node_meta`,
  `edge_weights` and the per-node JSON objects) become insertion-ordered
  association lists with dict assignment/lookup semantics;
* all author identifiers are strings, so the `str(...)` coercions in the
  script are identities and are not repeated here;
* `time.sleep`, `print` and tqdm progress bars have no observable effect
  on the produced graph and are dropped; the final `json.dump` is not
  modelled, `main` returns the graph value (or the uncaught exception as
  `Except.error`).

Functions keep the names of the script where possible.  Each
transport-level function also returns the next attempt index, so the
number of HTTP attempts a call performs is visible to the theorems.
-/

set_option autoImplicit false

namespace BuildGraph

/-- JSON values occurring in node objects of the produced graph. -/
inductive JVal where
  | str (s : String)
  | int (n : Int)
  | null
  | strList (l : List String)
deriving DecidableEq, Repr

/-- A node object: a Python dict in insertion order (key/value pairs). -/
abbrev NodeObj := List (String × JVal)

/-- An author-search candidate, i.e. one entry of the `"data"` list of
`/author/search`, restricted to the keys the script reads:
`top.get("authorId")`, `.get("affiliations", [])`, `.get("paperCount", None)`.
`none` models an absent key. -/
structure Candidate where
  authorId : Option String
  affiliations : Option (List String)
  paperCount : Option Int
deriving DecidableEq, Repr

/-- A co-author entry of a paper's `"authors"` list; the script reads
`a.get("authorId")` and `a.get("name")`. -/
structure PAuthor where
  authorId : Option String
  name : Option String
deriving DecidableEq, Repr

/-- A paper record, restricted to the keys the script reads:
`p.get("year", None)` and `p.get("authors", [])`. -/
structure Paper where
  year : Option Int
  authors : Option (List PAuthor)
deriving DecidableEq, Repr

/-- A 200-response body of a Semantic Scholar list endpoint: the optional
`"data"` key (`none` = key absent) and whether the dict carries any other
keys (such as `"total"` / `"offset"`), which decides its Python
truthiness. -/
structure S2Resp (α : Type) where
  hasOtherKeys : Bool
  dataField : Option (List α)
deriving DecidableEq, Repr

/-- Python truthiness of a response dict: a dict is truthy iff non-empty. -/
def S2Resp.truthy {α : Type} (r : S2Resp α) : Bool :=
  r.hasOtherKeys || r.dataField.isSome

/-- Python truthiness of the `data` variable after `s2_get` (which is either
`None` or a parsed dict): `not data` is the negation of this. -/
def dataTruthy {α : Type} : Option (S2Resp α) → Bool
  | none => false
  | some r => r.truthy

/-- Python truthiness of an optional string (`a.get(...)`): falsy when the
key is absent (`None`) or the value is the empty string. -/
def truthyS : Option String → Bool
  | none => false
  | some s => s != ""

/-- The attempt loop of `s2_get`: try up to `fuel` GETs starting at attempt
index `s`; a successful (200) attempt returns its body at once, a failed one
sleeps and retries.  Returns the result and the next attempt index. -/
def s2_getAux {α : Type} (att : Nat → Option (S2Resp α)) :
    Nat → Nat → Option (S2Resp α) × Nat
  | s, 0 => (none, s)
  | s, fuel + 1 =>
    match att s with
    | some r => (some r, s + 1)
    | none => s2_getAux att (s + 1) fuel

/-- `s2_get`: basic GET with simple retry — `for attempt in range(3)`,
returning `None` when all three attempts fail. -/
def s2_get {α : Type} (att : Nat → Option (S2Resp α)) (s : Nat) :
    Option (S2Resp α) × Nat :=
  s2_getAux att s 3

/-- The `for i in range(3)` retry loop of `find_author_id_by_name`: each
iteration sleeps 3 seconds, calls `s2_get` again and breaks as soon as the
result is truthy; the last (possibly falsy) result is kept. -/
def findRetryLoop (att : Nat → Option (S2Resp Candidate)) :
    Option (S2Resp Candidate) → Nat → Nat → Option (S2Resp Candidate) × Nat
  | d, s, 0 => (d, s)
  | _, s, k + 1 =>
    let r := s2_get att s
    if dataTruthy r.1 then r else findRetryLoop att r.1 r.2 k

/-- `find_author_id_by_name`: author search taking the top result.  Returns
`none` where the Python function returns the bare `None`, and
`some (top.get("authorId"), top)` otherwise; the second component is the
number of HTTP attempts performed. -/
def find_author_id_by_name (att : Nat → Option (S2Resp Candidate)) :
    Option (Option String × Candidate) × Nat :=
  let r0 := s2_get att 0
  let r := if dataTruthy r0.1 then r0 else findRetryLoop att r0.1 r0.2 3
  (if ¬ dataTruthy r.1 then none
   else
     match r.1 with
     | none => none
     | some resp =>
       match resp.dataField with
       | none => none
       | some [] => none
       | some (top :: _) => some (top.authorId, top), r.2)

/-- `get_author_papers`: one page of `/author/{id}/papers`; degrades to `[]`
when the request fails or the body has no `"data"` key. -/
def get_author_papers (att : Nat → Option (S2Resp Paper)) : List Paper :=
  let data := (s2_get att 0).1
  if ¬ dataTruthy data then []
  else
    match data with
    | none => []
    | some r =>
      match r.dataField with
      | none => []
      | some l => l

/-! ### Ordered-dict helpers

Python dicts preserve insertion order; assignment to a present key updates
the value in place, assignment to an absent key appends. -/

/-- Dict lookup: first (and, with unique keys, only) entry for `k`. -/
def dlookup {κ β : Type} [DecidableEq κ] (m : List (κ × β)) (k : κ) : Option β :=
  (m.find? fun e => e.1 = k).map (·.2)

/-- Dict assignment `m[k] = v`. -/
def dinsert {κ β : Type} [DecidableEq κ] (m : List (κ × β)) (k : κ) (v : β) :
    List (κ × β) :=
  if (m.find? fun e => e.1 = k).isSome then
    m.map fun e => if e.1 = k then (k, v) else e
  else m ++ [(k, v)]

/-- `defaultdict(int)` increment `ew[k] += 1` on the edge-weight map. -/
def dincr {κ : Type} [DecidableEq κ] (ew : List (κ × Nat)) (k : κ) :
    List (κ × Nat) :=
  if (ew.find? fun e => e.1 = k).isSome then
    ew.map fun e => if e.1 = k then (e.1, e.2 + 1) else e
  else ew ++ [(k, 1)]

/-- Dict assignment on a node object, `n[k] = v`. -/
def setKey (n : NodeObj) (k : String) (v : JVal) : NodeObj :=
  dinsert n k v

/-- `n[k]` read off a node object (all reads in the script hit keys that are
present by construction, and hold strings). -/
def getKey (n : NodeObj) (k : String) : Option JVal :=
  dlookup n k

/-- `str(n["id"])` — by construction `"id"` is always present and a string. -/
def nodeId (n : NodeObj) : String :=
  match getKey n "id" with
  | some (.str s) => s
  | _ => ""

/-! ### The aggregation pipeline of `main` -/

/-- Python `line.strip()`: drop leading and trailing whitespace. -/
def stripLine (s : String) : String :=
  .mk (((s.data.dropWhile Char.isWhitespace).reverse.dropWhile
    Char.isWhitespace).reverse)

/-- `read_researchers`: strip each line, keep the non-blank ones. -/
def read_researchers (lines : List String) : List String :=
  (lines.map stripLine).filter (· != "")

/-- `.get("paperCount", None)` serialized into the node object. -/
def optIntJ : Option Int → JVal
  | none => .null
  | some n => .int n

/-- The candidate dict default `uw_author_meta.get(name, {})`. -/
def emptyCand : Candidate := ⟨none, none, none⟩

/-- The node object built for a resolved seed ("UW") researcher. -/
def mkUwNode (author_id name : String) (meta : Option Candidate) : NodeObj :=
  [("id", .str author_id),
   ("name", .str name),
   ("type", .str "uw"),
   ("affiliations", .strList ((meta.getD emptyCand).affiliations.getD [])),
   ("paperCount", optIntJ (meta.getD emptyCand).paperCount)]

/-- The node object built for a newly seen co-author. -/
def mkCoNode (a_id a_name : String) : NodeObj :=
  [("id", .str a_id),
   ("name", .str a_name),
   ("type", .str "coauthor")]

/-- The mutable aggregation state of `main`: the node-metadata dict and the
edge-weight dict. -/
structure AggState where
  nm : List (String × NodeObj)
  ew : List ((String × String) × Nat)
deriving DecidableEq, Repr

/-- Lexicographic comparison of two code-point sequences — the order Python
uses for `u > v` on identifier strings.  (An executable form of the `<`
order on `List Char`; see `charListLt_iff`.) -/
def charListLt : List Char → List Char → Bool
  | [], [] => false
  | [], _ :: _ => true
  | _ :: _, [] => false
  | a :: as, b :: bs =>
    if a < b then true
    else if b < a then false
    else charListLt as bs

/-- Executable `u < v` on strings (code-point lexicographic, as in Python). -/
def strLt (a b : String) : Bool :=
  charListLt a.data b.data

/-- The undirected edge-key increment: canonicalize the pair (lexicographically
smaller id first, `if u > v: u, v = v, u`) and bump its counter. -/
def incrEdge (ew : List ((String × String) × Nat)) (author_id a_id : String) :
    List ((String × String) × Nat) :=
  let u := author_id
  let v := a_id
  let k := if strLt v u then (v, u) else (u, v)
  dincr ew k

/-- `if a_id not in node_meta: node_meta[a_id] = {...}` — store metadata for
a newly seen co-author, leaving already-registered nodes untouched. -/
def registerCoauthor (nm : List (String × NodeObj)) (a_id a_name : String) :
    List (String × NodeObj) :=
  if (dlookup nm a_id).isSome then nm
  else dinsert nm a_id (mkCoNode a_id a_name)

/-- The body of `for a in authors:` — skip entries with a falsy id or name,
register the co-author's node if unseen, and credit the undirected edge to
the seed author unless it is a self-pair. -/
def processAuthor (author_id : String) (st : AggState) (a : PAuthor) : AggState :=
  if truthyS a.authorId && truthyS a.name then
    let a_id := a.authorId.getD ""
    let a_name := a.name.getD ""
    AggState.mk (registerCoauthor st.nm a_id a_name)
      (if a_id != author_id then incrEdge st.ew author_id a_id else st.ew)
  else st

/-- The body of `for p in papers:` — apply the optional year filter, then
process the paper's author list. -/
def processPaper (minYear : Option Int) (author_id : String)
    (st : AggState) (p : Paper) : AggState :=
  if minYear.isSome && p.year.isSome && decide (p.year.getD 0 < minYear.getD 0) then
    st
  else
    (p.authors.getD []).foldl (processAuthor author_id) st

/-- The "Add UW nodes" loop: one node per entry of `uw_author_ids`
(unconditional dict assignment, so a repeated author id is overwritten). -/
def addUwNodes (uw_author_ids : List (String × String))
    (uw_author_meta : List (String × Candidate)) : List (String × NodeObj) :=
  uw_author_ids.foldl
    (fun nm e => dinsert nm e.2 (mkUwNode e.2 e.1 (dlookup uw_author_meta e.1)))
    []

/-- An entry of the output `links` array: `{"source": u, "target": v,
"weight": w}`. -/
structure EdgeObj where
  source : String
  target : String
  weight : Nat
deriving DecidableEq, Repr

/-- The output document: `{"nodes": nodes, "links": edges}`. -/
structure Graph where
  nodes : List NodeObj
  links : List EdgeObj
deriving DecidableEq, Repr

/-- `degree[x]` of the defaultdict built by the degree loop: occurrences of
`x` as a source plus occurrences as a target. -/
def degreeOf (edges : List EdgeObj) (x : String) : Nat :=
  (edges.filter fun e => e.source = x).length
    + (edges.filter fun e => e.target = x).length

/-- Step 3 of `main`: filter edges by minimum weight, prune nodes that occur
in no surviving edge, and attach each kept node's degree. -/
def finalize (ew : List ((String × String) × Nat))
    (nm : List (String × NodeObj)) (minEdgeWeight : Nat) : Graph :=
  let edges := (ew.filter fun e => minEdgeWeight ≤ e.2).map
    fun e => EdgeObj.mk e.1.1 e.1.2 e.2
  let used_nodes := edges.foldl (fun s e => s ++ [e.source, e.target]) []
  let nodes := ((nm.filter fun e => e.1 ∈ used_nodes).map (·.2)).map
    fun n => setKey n "degree" (.int (degreeOf edges (nodeId n)))
  ⟨nodes, edges⟩

/-- Step 1 of `main`: resolve every researcher name.  The Python line
`author_id, meta = find_author_id_by_name(name)` raises a `TypeError` when
the callee returns the bare `None`, aborting the run — modelled as
`Except.error`.  A falsy `author_id` is warned about and skipped. -/
def resolvePhase (search : String → Nat → Option (S2Resp Candidate))
    (researchers : List String) :
    Except String (List (String × String) × List (String × Candidate)) :=
  researchers.foldlM
    (fun acc name =>
      match (find_author_id_by_name (search name)).1 with
      | none =>
        .error "TypeError: cannot unpack non-iterable NoneType object"
      | some (author_id, meta) =>
        if truthyS author_id then
          .ok (dinsert acc.1 name (author_id.getD ""),
               dinsert acc.2 name meta)
        else
          .ok acc)
    ([], [])

/-- Step 2 of `main`: `for name, author_id in uw_author_ids.items():` —
fetch each resolved author's papers and aggregate them into the state. -/
def papersPhase (papersOracle : String → Nat → Option (S2Resp Paper))
    (minYear : Option Int) (uw_author_ids : List (String × String))
    (st0 : AggState) : AggState :=
  uw_author_ids.foldl
    (fun st e =>
      let papers := get_author_papers (papersOracle e.2)
      papers.foldl (processPaper minYear e.2) st)
    st0

/-- `main`, parameterized by the input lines, the two endpoint oracles and
the configuration constants (`MIN_YEAR`, `MIN_EDGE_WEIGHT`).  Returns the
graph that is serialized to `graph.json`, or the uncaught exception. -/
def main (lines : List String)
    (search : String → Nat → Option (S2Resp Candidate))
    (papersOracle : String → Nat → Option (S2Resp Paper))
    (minYear : Option Int) (minEdgeWeight : Nat) : Except String Graph :=
  match resolvePhase search (read_researchers lines) with
  | .error e => .error e
  | .ok (uw_author_ids, uw_author_meta) =>
    let node_meta := addUwNodes uw_author_ids uw_author_meta
    let st := papersPhase papersOracle minYear uw_author_ids
      (AggState.mk node_meta [])
    .ok (finalize st.ew st.nm minEdgeWeight)

/-- The script's configuration constants. -/
def MIN_EDGE_WEIGHT : Nat := 2

/-- `MIN_YEAR = None` — year filtering disabled by default. -/
def MIN_YEAR : Option Int := none

/-! ### Derived notions used by the verification -/

/-- The keys of a dict, in order. -/
def dkeys {κ β : Type} (m : List (κ × β)) : List κ :=
  m.map (·.1)

/-- Number of edges a node identifier participates in. -/
def incidentCount (edges : List EdgeObj) (x : String) : Nat :=
  (edges.filter fun e => e.source = x ∨ e.target = x).length

/-- A node object registered for key `k` is either a seed ("uw") node or a
co-author node for that key. -/
def nodeShaped (k : String) (nd : NodeObj) : Prop :=
  (∃ n m, nd = mkUwNode k n m) ∨ ∃ n, nd = mkCoNode k n

/-- Internal invariant of the aggregation state: every node entry is a
well-shaped node for its key; every edge key is strictly ordered with both
endpoints registered in the node map; edge keys are pairwise distinct. -/
def stInv (st : AggState) : Prop :=
  (∀ p ∈ st.nm, nodeShaped p.1 p.2)
  ∧ (∀ p ∈ st.ew, p.1.1 < p.1.2 ∧ p.1.1 ∈ dkeys st.nm ∧ p.1.2 ∈ dkeys st.nm)
  ∧ (dkeys st.ew).Nodup

/-- The invariant carried through the paper-fetching phase: `stInv` plus
registration of every resolved seed identifier. -/
def phaseInv (ids : List (String × String)) (st : AggState) : Prop :=
  stInv st ∧ ∀ e ∈ ids, e.2 ∈ dkeys st.nm

/-! ### Concrete transport oracles used to exercise the pipeline -/

/-- A search endpoint returning a well-formed empty result set
(`{"total": 0, "offset": 0, "data": []}`) for every query. -/
def zeroCandOracle : String → Nat → Option (S2Resp Candidate) :=
  fun _ _ => some ⟨true, some []⟩

/-- A papers endpoint returning an empty publication list for every author. -/
def noPapersOracle : String → Nat → Option (S2Resp Paper) :=
  fun _ _ => some ⟨true, some []⟩

/-- The spec's degree-correctness example: accumulated weights. -/
def c5ew : List ((String × String) × Nat) :=
  [(("A", "B"), 3), (("A", "C"), 2), (("B", "C"), 2)]

/-- The spec's degree-correctness example: node map. -/
def c5nm : List (String × NodeObj) :=
  [("A", mkCoNode "A" "Anna"), ("B", mkCoNode "B" "Ben"),
   ("C", mkCoNode "C" "Cara")]

/-- A two-seed input file. -/
def wLines : List String := ["Alice", "Bob"]

def wCandA : Candidate := ⟨some "A1", some ["UW"], some 10⟩

def wCandB : Candidate := ⟨some "B1", some ["UW"], some 4⟩

/-- A search oracle resolving the two seeds on the first attempt. -/
def wSearch : String → Nat → Option (S2Resp Candidate) :=
  fun name _ =>
    if name = "Alice" then some ⟨true, some [wCandA]⟩
    else if name = "Bob" then some ⟨true, some [wCandB]⟩
    else some ⟨true, some []⟩

/-- A paper by A1 with co-authors B1 and C1 (and A1 itself co-listed). -/
def wPaper : Paper :=
  ⟨some 2020,
   some [⟨some "A1", some "Alice"⟩, ⟨some "B1", some "Bob"⟩,
     ⟨some "C1", some "Carol"⟩]⟩

/-- A papers oracle: A1 authored `wPaper` twice, everyone else nothing. -/
def wPapers : String → Nat → Option (S2Resp Paper) :=
  fun aid _ =>
    if aid = "A1" then some ⟨true, some [wPaper, wPaper]⟩
    else some ⟨true, some []⟩

/-- The graph emitted by the successful concrete run. -/
def wGraph : Graph :=
  match main wLines wSearch wPapers none 2 with
  | .ok g => g
  | .error _ => Graph.mk [] []

/-- The node emitted for the resolved seed "Alice" in that run. -/
def wNodeA : NodeObj :=
  [("id", .str "A1"), ("name", .str "Alice"), ("type", .str "uw"),
   ("affiliations", .strList ["UW"]), ("paperCount", .int 10),
   ("degree", .int 2)]

/-- Two seed names that resolve to the same author identifier "X". -/
def c4cand1 : Candidate := ⟨some "X", some ["Dept A"], some 5⟩

def c4cand2 : Candidate := ⟨some "X", some ["Dept B"], some 7⟩

def c4meta : List (String × Candidate) :=
  [("Alice A", c4cand1), ("Bob B", c4cand2)]

end BuildGraph

namespace BuildGraph

instance {ε α : Type} [DecidableEq ε] [DecidableEq α] :
    DecidableEq (Except ε α) := fun a b =>
  match a, b with
  | .ok x, .ok y =>
    if h : x = y then isTrue (by rw [h])
    else isFalse (by intro hc; injection hc; exact h (by assumption))
  | .error x, .error y =>
    if h : x = y then isTrue (by rw [h])
    else isFalse (by intro hc; injection hc; exact h (by assumption))
  | .ok _, .error _ => isFalse (by intro hc; exact Except.noConfusion hc)
  | .error _, .ok _ => isFalse (by intro hc; exact Except.noConfusion hc)

/-! ### Generic helper lemmas -/

/-- A predicate preserved by each step of a left fold holds of the result. -/
theorem foldl_preserve {α β : Type} (P : α → Prop) (f : α → β → α)
    (h : ∀ st b, P st → P (f st b)) :
    ∀ (l : List β) (st : α), P st → P (l.foldl f st) := by
  intro l
  induction l with
  | nil => intro st hst; exact hst
  | cons b t ih => intro st hst; exact ih (f st b) (h st b hst)

/-- A predicate preserved by each step of a left fold over a fixed list,
where the step may use membership of the element in that list. -/
theorem foldl_preserve_mem {α β : Type} (P : α → Prop) (f : α → β → α) :
    ∀ (l : List β), (∀ st b, b ∈ l → P st → P (f st b)) →
      ∀ st, P st → P (l.foldl f st) := by
  intro l
  induction l with
  | nil => intro _ st hst; exact hst
  | cons b t ih =>
    intro h st hst
    exact ih (fun st' b' hb' => h st' b' (List.mem_cons_of_mem _ hb'))
      (f st b) (h st b (List.mem_cons_self _ _) hst)

/-! ### Dictionary lemmas -/

theorem dlookup_cons {κ β : Type} [DecidableEq κ] (e : κ × β)
    (m : List (κ × β)) (k : κ) :
    dlookup (e :: m) k = if e.1 = k then some e.2 else dlookup m k := by
  by_cases h : e.1 = k <;> simp [dlookup, List.find?, h]

theorem dlookup_isSome_iff {κ β : Type} [DecidableEq κ]
    (m : List (κ × β)) (k : κ) :
    (dlookup m k).isSome ↔ k ∈ dkeys m := by
  induction m with
  | nil => simp [dlookup, dkeys]
  | cons e t ih =>
    rw [dlookup_cons]
    by_cases h : e.1 = k
    · simp [dkeys, h]
    · rw [if_neg h, ih]
      simp only [dkeys, List.map_cons, List.mem_cons]
      constructor
      · exact Or.inr
      · rintro (hc | hk)
        · exact absurd hc.symm h
        · exact hk

theorem find?_key_isSome_iff {κ β : Type} [DecidableEq κ]
    (m : List (κ × β)) (k : κ) :
    (m.find? fun e => e.1 = k).isSome ↔ k ∈ dkeys m := by
  rw [← dlookup_isSome_iff]
  simp [dlookup]

/-- Entries of `dinsert` are the new pair or old entries. -/
theorem mem_dinsert {κ β : Type} [DecidableEq κ] {m : List (κ × β)}
    {k : κ} {v : β} {e' : κ × β} (h : e' ∈ dinsert m k v) :
    e' = (k, v) ∨ e' ∈ m := by
  unfold dinsert at h
  split at h
  · obtain ⟨p, hp, he⟩ := List.mem_map.1 h
    by_cases hpk : p.1 = k
    · left; rw [← he]; simp [hpk]
    · right; rw [← he]; simp [hpk]; exact hp
  · rcases List.mem_append.1 h with h | h
    · right; exact h
    · left; simpa using h

/-- Keys of `dinsert` in the present case. -/
theorem dkeys_dinsert_present {κ β : Type} [DecidableEq κ]
    {m : List (κ × β)} {k : κ} (v : β) (h : k ∈ dkeys m) :
    dkeys (dinsert m k v) = dkeys m := by
  rw [dinsert, if_pos ((find?_key_isSome_iff m k).2 h)]
  simp only [dkeys, List.map_map]
  refine List.map_congr_left fun e _ => ?_
  by_cases he : e.1 = k <;> simp [he]

/-- Keys of `dinsert` in the absent case. -/
theorem dkeys_dinsert_absent {κ β : Type} [DecidableEq κ]
    {m : List (κ × β)} {k : κ} (v : β) (h : ¬ k ∈ dkeys m) :
    dkeys (dinsert m k v) = dkeys m ++ [k] := by
  rw [dinsert, if_neg fun hs => h ((find?_key_isSome_iff m k).1 hs)]
  simp [dkeys]

theorem mem_dkeys_dinsert {κ β : Type} [DecidableEq κ]
    (m : List (κ × β)) (k : κ) (v : β) (x : κ) :
    x ∈ dkeys (dinsert m k v) ↔ x = k ∨ x ∈ dkeys m := by
  by_cases h : k ∈ dkeys m
  · rw [dkeys_dinsert_present v h]
    constructor
    · exact Or.inr
    · rintro (rfl | hx)
      · exact h
      · exact hx
  · rw [dkeys_dinsert_absent v h]
    simp [or_comm]

/-- Key monotonicity of `dinsert`. -/
theorem mem_dkeys_dinsert_of_mem {κ β : Type} [DecidableEq κ]
    {m : List (κ × β)} (k : κ) (v : β) {x : κ} (h : x ∈ dkeys m) :
    x ∈ dkeys (dinsert m k v) :=
  (mem_dkeys_dinsert m k v x).2 (Or.inr h)

theorem mem_dkeys_dinsert_self {κ β : Type} [DecidableEq κ]
    (m : List (κ × β)) (k : κ) (v : β) :
    k ∈ dkeys (dinsert m k v) :=
  (mem_dkeys_dinsert m k v k).2 (Or.inl rfl)

/-- Looking up an untouched key after the in-place update of `dinsert`. -/
theorem dlookup_map_update_ne {κ β : Type} [DecidableEq κ]
    (m : List (κ × β)) (k : κ) (v : β) {x : κ} (h : x ≠ k) :
    dlookup (m.map fun e => if e.1 = k then (k, v) else e) x = dlookup m x := by
  induction m with
  | nil => rfl
  | cons e t ih =>
    rw [List.map_cons, dlookup_cons, dlookup_cons]
    by_cases he : e.1 = k
    · rw [if_pos he,
        if_neg (show ¬ ((k, v).1 = x) from fun hc => h hc.symm),
        if_neg fun hc : e.1 = x => h (he.symm.trans hc).symm, ih]
    · rw [if_neg he]
      by_cases hex : e.1 = x
      · rw [if_pos hex, if_pos hex]
      · rw [if_neg hex, if_neg hex, ih]

/-- Looking up an old key after the appending branch of `dinsert`. -/
theorem dlookup_append_single_ne {κ β : Type} [DecidableEq κ]
    (m : List (κ × β)) (k : κ) (v : β) {x : κ} (h : x ≠ k) :
    dlookup (m ++ [(k, v)]) x = dlookup m x := by
  induction m with
  | nil =>
    rw [List.nil_append, dlookup_cons,
      if_neg (show ¬ ((k, v).1 = x) from fun hc => h hc.symm)]
  | cons e t ih =>
    rw [List.cons_append, dlookup_cons, dlookup_cons]
    by_cases hex : e.1 = x
    · rw [if_pos hex, if_pos hex]
    · rw [if_neg hex, if_neg hex, ih]

/-- Looking up the updated key after the in-place update of `dinsert`. -/
theorem dlookup_map_update_self {κ β : Type} [DecidableEq κ]
    (m : List (κ × β)) (k : κ) (v : β) (h : k ∈ dkeys m) :
    dlookup (m.map fun e => if e.1 = k then (k, v) else e) k = some v := by
  induction m with
  | nil => simp [dkeys] at h
  | cons e t ih =>
    rw [List.map_cons, dlookup_cons]
    by_cases he : e.1 = k
    · rw [if_pos he, if_pos (show (k, v).1 = k from rfl)]
    · rw [if_neg he, if_neg he]
      refine ih ?_
      simp only [dkeys, List.map_cons, List.mem_cons] at h
      rcases h with h | h
      · exact absurd h.symm he
      · exact h

/-- Looking up the appended key after the appending branch of `dinsert`. -/
theorem dlookup_append_single_self {κ β : Type} [DecidableEq κ]
    (m : List (κ × β)) (k : κ) (v : β) (h : ¬ k ∈ dkeys m) :
    dlookup (m ++ [(k, v)]) k = some v := by
  induction m with
  | nil => rw [List.nil_append, dlookup_cons, if_pos rfl]
  | cons e t ih =>
    rw [List.cons_append, dlookup_cons]
    have he : ¬ e.1 = k := fun hc => h (by simp [dkeys, hc])
    rw [if_neg he]
    exact ih fun hc => h (by simp [dkeys]; exact Or.inr (by simpa [dkeys] using hc))

/-- Looking up a different key after `dinsert`. -/
theorem dlookup_dinsert_ne {κ β : Type} [DecidableEq κ]
    (m : List (κ × β)) (k : κ) (v : β) {x : κ} (h : x ≠ k) :
    dlookup (dinsert m k v) x = dlookup m x := by
  unfold dinsert
  split
  · exact dlookup_map_update_ne m k v h
  · exact dlookup_append_single_ne m k v h

/-- Looking up the inserted key after `dinsert`. -/
theorem dlookup_dinsert_self {κ β : Type} [DecidableEq κ]
    (m : List (κ × β)) (k : κ) (v : β) :
    dlookup (dinsert m k v) k = some v := by
  unfold dinsert
  split
  case isTrue hp =>
    exact dlookup_map_update_self m k v ((find?_key_isSome_iff m k).1 hp)
  case isFalse hp =>
    exact dlookup_append_single_self m k v
      fun hk => hp ((find?_key_isSome_iff m k).2 hk)


/-- Entries of `dincr` keep an old key or carry the incremented key. -/
theorem mem_dincr {κ : Type} [DecidableEq κ] {ew : List (κ × Nat)}
    {k : κ} {e' : κ × Nat} (h : e' ∈ dincr ew k) :
    e'.1 = k ∨ e' ∈ ew := by
  unfold dincr at h
  split at h
  · obtain ⟨p, hp, he⟩ := List.mem_map.1 h
    by_cases hpk : p.1 = k
    · left; rw [← he]; simp [hpk]
    · right; rw [← he]; simp [hpk]; exact hp
  · rcases List.mem_append.1 h with h | h
    · right; exact h
    · left; simp at h; rw [h]

/-- Keys of `dincr` in the present case. -/
theorem dkeys_dincr_present {κ : Type} [DecidableEq κ]
    {ew : List (κ × Nat)} {k : κ} (h : k ∈ dkeys ew) :
    dkeys (dincr ew k) = dkeys ew := by
  rw [dincr, if_pos ((find?_key_isSome_iff ew k).2 h)]
  simp only [dkeys, List.map_map]
  refine List.map_congr_left fun e _ => ?_
  by_cases he : e.1 = k <;> simp [he]

/-- Keys of `dincr` in the absent case. -/
theorem dkeys_dincr_absent {κ : Type} [DecidableEq κ]
    {ew : List (κ × Nat)} {k : κ} (h : ¬ k ∈ dkeys ew) :
    dkeys (dincr ew k) = dkeys ew ++ [k] := by
  rw [dincr, if_neg fun hs => h ((find?_key_isSome_iff ew k).1 hs)]
  simp [dkeys]

/-- `dincr` preserves distinctness of keys. -/
theorem nodup_dkeys_dincr {κ : Type} [DecidableEq κ]
    (ew : List (κ × Nat)) (k : κ) (h : (dkeys ew).Nodup) :
    (dkeys (dincr ew k)).Nodup := by
  by_cases hk : k ∈ dkeys ew
  · rw [dkeys_dincr_present hk]; exact h
  · rw [dkeys_dincr_absent hk]
    simp [List.nodup_append, h, hk]

theorem mem_dkeys_dincr {κ : Type} [DecidableEq κ]
    (ew : List (κ × Nat)) (k : κ) (x : κ) :
    x ∈ dkeys (dincr ew k) ↔ x = k ∨ x ∈ dkeys ew := by
  by_cases h : k ∈ dkeys ew
  · rw [dkeys_dincr_present h]
    constructor
    · exact Or.inr
    · rintro (rfl | hx)
      · exact h
      · exact hx
  · rw [dkeys_dincr_absent h]
    simp [or_comm]

/-! ### The executable string order agrees with the standard one -/

theorem charListLt_iff :
    ∀ (l₁ l₂ : List Char), charListLt l₁ l₂ = true ↔ l₁ < l₂ := by
  intro l₁
  induction l₁ with
  | nil =>
    intro l₂
    cases l₂ with
    | nil =>
      constructor
      · intro h; exact absurd h (by rw [charListLt]; exact Bool.false_ne_true)
      · intro h; cases h
    | cons b bs =>
      constructor
      · intro _; exact List.Lex.nil
      · intro _; rfl
  | cons a as ih =>
    intro l₂
    cases l₂ with
    | nil =>
      constructor
      · intro h; exact absurd h (by rw [charListLt]; exact Bool.false_ne_true)
      · intro h; cases h
    | cons b bs =>
      rw [charListLt]
      by_cases hab : a < b
      · rw [if_pos hab]
        constructor
        · intro _; exact List.Lex.rel hab
        · intro _; rfl
      · rw [if_neg hab]
        by_cases hba : b < a
        · rw [if_pos hba]
          constructor
          · intro h; exact absurd h Bool.false_ne_true
          · intro h
            cases h with
            | cons _ => exact absurd hba (lt_irrefl a)
            | rel h' => exact absurd h' hab
        · rw [if_neg hba]
          have heq : a = b := le_antisymm (not_lt.1 hba) (not_lt.1 hab)
          subst heq
          constructor
          · intro h; exact List.Lex.cons ((ih bs).1 h)
          · intro h
            cases h with
            | cons h' => exact (ih bs).2 h'
            | rel h' => exact absurd h' (lt_irrefl a)

theorem strLt_iff (a b : String) : strLt a b = true ↔ a < b := by
  rw [String.lt_iff_toList_lt]
  exact charListLt_iff a.data b.data

/-! ### Node-object and finalize lemmas -/

theorem getKey_setKey_self (n : NodeObj) (k : String) (v : JVal) :
    getKey (setKey n k v) k = some v :=
  dlookup_dinsert_self n k v

theorem getKey_setKey_ne (n : NodeObj) (k : String) (v : JVal) {x : String}
    (h : x ≠ k) : getKey (setKey n k v) x = getKey n x :=
  dlookup_dinsert_ne n k v h

theorem nodeId_setKey_degree (n : NodeObj) (v : JVal) :
    nodeId (setKey n "degree" v) = nodeId n := by
  unfold nodeId
  rw [getKey_setKey_ne n "degree" v (by decide)]

theorem getKey_mkUwNode_id (i n : String) (m : Option Candidate) :
    getKey (mkUwNode i n m) "id" = some (.str i) := rfl

theorem getKey_mkCoNode_id (i n : String) :
    getKey (mkCoNode i n) "id" = some (.str i) := rfl

theorem nodeId_mkUwNode (i n : String) (m : Option Candidate) :
    nodeId (mkUwNode i n m) = i := rfl

theorem nodeId_mkCoNode (i n : String) : nodeId (mkCoNode i n) = i := rfl

theorem setKey_degree_mkUwNode (i n : String) (m : Option Candidate) (v : JVal) :
    setKey (mkUwNode i n m) "degree" v = mkUwNode i n m ++ [("degree", v)] := rfl

theorem setKey_degree_mkCoNode (i n : String) (v : JVal) :
    setKey (mkCoNode i n) "degree" v = mkCoNode i n ++ [("degree", v)] := rfl

/-- The degree counter of the script (one bump per endpoint occurrence)
counts incident edges whenever no edge is a self-loop. -/
theorem degreeOf_eq_incident (edges : List EdgeObj) (x : String)
    (h : ∀ e ∈ edges, e.source ≠ e.target) :
    degreeOf edges x = incidentCount edges x := by
  induction edges with
  | nil => rfl
  | cons e t ih =>
    have hne := h e (List.mem_cons_self _ _)
    have ht : ∀ e' ∈ t, e'.source ≠ e'.target :=
      fun e' he' => h e' (List.mem_cons_of_mem _ he')
    simp only [degreeOf, incidentCount] at ih ⊢
    have ihh := ih ht
    rw [List.filter_cons, List.filter_cons, List.filter_cons]
    by_cases hs : e.source = x <;> by_cases htg : e.target = x
    · exact absurd (hs.trans htg.symm) hne
    · rw [if_pos (by simp [hs]), if_neg (by simp [htg]), if_pos (by simp [hs])]
      simp only [List.length_cons]
      omega
    · rw [if_neg (by simp [hs]), if_pos (by simp [htg]), if_pos (by simp [htg])]
      simp only [List.length_cons]
      omega
    · rw [if_neg (by simp [hs]), if_neg (by simp [htg]),
        if_neg (by simp [hs, htg])]
      omega

/-- Membership in the `used_nodes` accumulator of `finalize`. -/
theorem mem_usedFold (edges : List EdgeObj) :
    ∀ (s0 : List String) (x : String),
      (x ∈ edges.foldl (fun s e => s ++ [e.source, e.target]) s0 ↔
        x ∈ s0 ∨ ∃ e ∈ edges, x = e.source ∨ x = e.target) := by
  induction edges with
  | nil => intro s0 x; simp
  | cons e t ih =>
    intro s0 x
    rw [List.foldl_cons, ih]
    simp only [List.mem_append, List.mem_cons, List.mem_singleton,
      List.not_mem_nil, or_false]
    aesop

/-- Characterization of the emitted edge list. -/
theorem finalize_links_mem (ew : List ((String × String) × Nat))
    (nm : List (String × NodeObj)) (minW : Nat) (e : EdgeObj) :
    e ∈ (finalize ew nm minW).links ↔
      ((e.source, e.target), e.weight) ∈ ew ∧ minW ≤ e.weight := by
  simp only [finalize, List.mem_map, List.mem_filter, decide_eq_true_eq]
  constructor
  · rintro ⟨p, ⟨hp, hw⟩, rfl⟩
    exact ⟨hp, hw⟩
  · rintro ⟨hp, hw⟩
    exact ⟨((e.source, e.target), e.weight), ⟨hp, hw⟩, rfl⟩

/-- Characterization of the emitted node list. -/
theorem finalize_nodes_mem (ew : List ((String × String) × Nat))
    (nm : List (String × NodeObj)) (minW : Nat) (nd : NodeObj) :
    nd ∈ (finalize ew nm minW).nodes ↔
      ∃ p ∈ nm,
        (∃ e ∈ (finalize ew nm minW).links, p.1 = e.source ∨ p.1 = e.target)
          ∧ nd = setKey p.2 "degree"
              (.int (degreeOf (finalize ew nm minW).links (nodeId p.2))) := by
  constructor
  · intro hnd
    obtain ⟨n0, hn0, rfl⟩ := List.mem_map.1 hnd
    obtain ⟨p, hp, rfl⟩ := List.mem_map.1 hn0
    have hpnm := (List.mem_filter.1 hp).1
    have hq := (List.mem_filter.1 hp).2
    rw [decide_eq_true_eq, mem_usedFold] at hq
    rcases hq with h | h
    · exact absurd h (List.not_mem_nil _)
    · exact ⟨p, hpnm, h, rfl⟩
  · rintro ⟨p, hp, hused, rfl⟩
    refine List.mem_map.2 ⟨p.2, List.mem_map.2 ⟨p, List.mem_filter.2 ⟨hp, ?_⟩, rfl⟩, rfl⟩
    rw [decide_eq_true_eq, mem_usedFold]
    exact Or.inr hused

/-- A shaped node stores its own key under `"id"`. -/
theorem nodeShaped_id {k : String} {nd : NodeObj} (h : nodeShaped k nd) :
    getKey nd "id" = some (.str k) := by
  rcases h with ⟨n, m, rfl⟩ | ⟨n, rfl⟩
  · rfl
  · rfl

/-- Every emitted node is incident to an emitted edge, provided the node map
stores each node under its own identifier. -/
theorem finalize_node_incident (ew : List ((String × String) × Nat))
    (nm : List (String × NodeObj)) (minW : Nat) (nd : NodeObj)
    (hid : ∀ p ∈ nm, getKey p.2 "id" = some (.str p.1))
    (hnd : nd ∈ (finalize ew nm minW).nodes) :
    ∃ e ∈ (finalize ew nm minW).links,
      nodeId nd = e.source ∨ nodeId nd = e.target := by
  obtain ⟨p, hp, ⟨e, he, hpe⟩, rfl⟩ := (finalize_nodes_mem ew nm minW nd).1 hnd
  refine ⟨e, he, ?_⟩
  rw [nodeId_setKey_degree]
  have hnid : nodeId p.2 = p.1 := by
    unfold nodeId
    rw [hid p hp]
  rw [hnid]
  exact hpe

/-- Every emitted node's `"degree"` field counts the emitted edges it
participates in, provided no accumulated edge key is a self-pair. -/
theorem finalize_degree_field (ew : List ((String × String) × Nat))
    (nm : List (String × NodeObj)) (minW : Nat) (nd : NodeObj)
    (hne : ∀ p ∈ ew, p.1.1 ≠ p.1.2)
    (hnd : nd ∈ (finalize ew nm minW).nodes) :
    getKey nd "degree" =
      some (.int (incidentCount (finalize ew nm minW).links (nodeId nd))) := by
  obtain ⟨p, hp, _, rfl⟩ := (finalize_nodes_mem ew nm minW nd).1 hnd
  rw [getKey_setKey_self, nodeId_setKey_degree]
  have hloop : ∀ e ∈ (finalize ew nm minW).links, e.source ≠ e.target := by
    intro e he
    exact hne _ ((finalize_links_mem ew nm minW e).1 he).1
  rw [degreeOf_eq_incident _ _ hloop]

/-! ### C5: behaviour of finalize -/

/-- C5: `finalize` (a) keeps exactly the accumulated edges whose weight
reaches the minimum, (b) keeps only nodes appearing in a surviving edge,
(c) sets each kept node's degree to the number of surviving edges it
participates in, and on the spec's example (edges (A,B,3), (A,C,2), (B,C,2),
minimum 2) all three edges survive and every kept node has degree 2. -/
theorem c5_finalize_behaviour :
    (∀ (ew : List ((String × String) × Nat)) (nm : List (String × NodeObj))
        (minW : Nat) (e : EdgeObj),
        e ∈ (finalize ew nm minW).links →
          minW ≤ e.weight ∧ ((e.source, e.target), e.weight) ∈ ew)
    ∧ (∀ (ew : List ((String × String) × Nat)) (nm : List (String × NodeObj))
        (minW : Nat) (k : String × String) (w : Nat),
        (k, w) ∈ ew → minW ≤ w →
          EdgeObj.mk k.1 k.2 w ∈ (finalize ew nm minW).links)
    ∧ (∀ (ew : List ((String × String) × Nat)) (nm : List (String × NodeObj))
        (minW : Nat) (nd : NodeObj),
        (∀ p ∈ nm, getKey p.2 "id" = some (.str p.1)) →
        nd ∈ (finalize ew nm minW).nodes →
          ∃ e ∈ (finalize ew nm minW).links,
            nodeId nd = e.source ∨ nodeId nd = e.target)
    ∧ (∀ (ew : List ((String × String) × Nat)) (nm : List (String × NodeObj))
        (minW : Nat) (nd : NodeObj),
        (∀ p ∈ ew, p.1.1 ≠ p.1.2) →
        nd ∈ (finalize ew nm minW).nodes →
          getKey nd "degree" =
            some (.int (incidentCount (finalize ew nm minW).links (nodeId nd))))
    ∧ ((finalize c5ew c5nm 2).links
          = [EdgeObj.mk "A" "B" 3, EdgeObj.mk "A" "C" 2, EdgeObj.mk "B" "C" 2]
        ∧ ∀ nd ∈ (finalize c5ew c5nm 2).nodes,
            getKey nd "degree" = some (.int 2)) := by
  refine ⟨?_, ?_, ?_, ?_, by decide, by decide⟩
  · intro ew nm minW e he
    have h := (finalize_links_mem ew nm minW e).1 he
    exact ⟨h.2, h.1⟩
  · intro ew nm minW k w hk hw
    exact (finalize_links_mem ew nm minW (EdgeObj.mk k.1 k.2 w)).2 ⟨hk, hw⟩
  · intro ew nm minW nd hid hnd
    exact finalize_node_incident ew nm minW nd hid hnd
  · intro ew nm minW nd hne hnd
    exact finalize_degree_field ew nm minW nd hne hnd

/-- Witness for C5: on the spec's example, the edge (A,B,3) survives the
minimum-weight-2 filter and stems from the accumulated map, and the node
stored for "A" carries degree = the number of surviving edges through "A". -/
theorem c5_finalize_behaviour_witness :
    ((2 : Nat) ≤ (EdgeObj.mk "A" "B" 3).weight
      ∧ (((EdgeObj.mk "A" "B" 3).source, (EdgeObj.mk "A" "B" 3).target),
          (EdgeObj.mk "A" "B" 3).weight) ∈ c5ew)
    ∧ getKey (setKey (mkCoNode "A" "Anna") "degree"
          (.int (degreeOf (finalize c5ew c5nm 2).links
            (nodeId (mkCoNode "A" "Anna"))))) "degree"
        = some (.int (incidentCount (finalize c5ew c5nm 2).links
            (nodeId (setKey (mkCoNode "A" "Anna") "degree"
              (.int (degreeOf (finalize c5ew c5nm 2).links
                (nodeId (mkCoNode "A" "Anna")))))))) := by
  constructor
  · exact c5_finalize_behaviour.1 c5ew c5nm 2 (EdgeObj.mk "A" "B" 3) (by decide)
  · exact c5_finalize_behaviour.2.2.2.1 c5ew c5nm 2 _ (by decide) (by decide)

/-! ### C2: retry accounting of the resolver -/

/-- On a transport where every attempt fails, `s2_getAux` consumes all its
fuel and returns `none`. -/
theorem s2_getAux_allFail {α : Type} (att : Nat → Option (S2Resp α))
    (h : ∀ n, att n = none) :
    ∀ (fuel s : Nat), s2_getAux att s fuel = (none, s + fuel) := by
  intro fuel
  induction fuel with
  | zero => intro s; rfl
  | succ n ih =>
    intro s
    rw [s2_getAux, h s, ih (s + 1)]
    have e1 : s + 1 + n = s + (n + 1) := by omega
    rw [e1]

/-- C2 (amended): on a transport where every attempt fails, the resolver
performs exactly 12 HTTP attempts — the 3 attempts of the initial `s2_get`
plus 3 retry rounds of a full 3-attempt `s2_get` each — and returns the
bare no-match value. -/
theorem c2_resolver_retry_attempts (att : Nat → Option (S2Resp Candidate))
    (h : ∀ n, att n = none) :
    find_author_id_by_name att = (none, 12) := by
  have h3 : ∀ s, s2_get att s = (none, s + 3) :=
    fun s => s2_getAux_allFail att h 3 s
  simp only [find_author_id_by_name, findRetryLoop, s2_get] at *
  simp [h3 0, h3 3, h3 6, h3 9, dataTruthy, findRetryLoop]

/-- Witness for C2: the all-failing transport satisfies the hypothesis, and
the resolver call on it evaluates to `(none, 12)`. -/
theorem c2_resolver_retry_attempts_witness :
    find_author_id_by_name (fun _ => (none : Option (S2Resp Candidate)))
      = (none, 12) :=
  c2_resolver_retry_attempts (fun _ => none) (fun _ => rfl)

/-- Counterexample to C2 as stated: when every attempt keeps failing the
resolver performs 12 transport attempts before giving up, not a total of
exactly 6 — each of the 3 escalated retries is a fresh `s2_get`, which
itself makes 3 attempts. -/
theorem c2_counterexample :
    (find_author_id_by_name (fun _ => (none : Option (S2Resp Candidate)))).2
        = 12
      ∧ (12 : Nat) ≠ 6 := by
  constructor
  · decide
  · decide

/-! ### C1: a seed name with zero search candidates crashes the run -/

/-- C1 (code evaluated at the failing input): the resolver returns the bare
`None` for a name whose search yields a well-formed empty candidate list,
and `main` then aborts with a `TypeError` while unpacking it — the second
seed name is never processed, contradicting the drop-with-warning policy. -/
theorem c1_zero_candidates_crash :
    find_author_id_by_name (zeroCandOracle "Nonexistent Person XYZ123")
        = (none, 1)
      ∧ main ["Nonexistent Person XYZ123", "Second Researcher"]
          zeroCandOracle noPapersOracle none 2
        = Except.error "TypeError: cannot unpack non-iterable NoneType object" := by
  constructor
  · decide
  · decide

/-! ### C7: canonical edge keying is symmetric -/

/-- C7: crediting a co-authorship observation `(a, b)` updates exactly the
same edge-weight map as crediting `(b, a)`: the counter key is the
canonicalized pair with the lexicographically smaller identifier first. -/
theorem c7_edge_symmetry :
    ∀ (ew : List ((String × String) × Nat)) (a b : String),
      incrEdge ew a b = incrEdge ew b a := by
  intro ew a b
  show dincr ew (if strLt b a then (b, a) else (a, b))
      = dincr ew (if strLt a b then (a, b) else (b, a))
  rcases lt_trichotomy a b with h | h | h
  · rw [if_neg (by rw [strLt_iff]; exact lt_asymm h),
      if_pos ((strLt_iff a b).2 h)]
  · subst h; rfl
  · rw [if_pos ((strLt_iff b a).2 h),
      if_neg (by rw [strLt_iff]; exact lt_asymm h)]

/-! ### C9: the year filter -/

/-- C9: a publication with a known year strictly older than the configured
minimum is skipped (the aggregation state is untouched); a publication with
unknown year, or any publication when no minimum is configured, or one at
least as recent as the minimum, is handed to the author-aggregation fold. -/
theorem c9_year_filter :
    ∀ (minYear : Option Int) (author_id : String) (st : AggState) (p : Paper),
      (∀ m y, minYear = some m → p.year = some y → y < m →
        processPaper minYear author_id st p = st)
      ∧ (p.year = none →
        processPaper minYear author_id st p =
          (p.authors.getD []).foldl (processAuthor author_id) st)
      ∧ (minYear = none →
        processPaper minYear author_id st p =
          (p.authors.getD []).foldl (processAuthor author_id) st)
      ∧ (∀ m y, minYear = some m → p.year = some y → m ≤ y →
        processPaper minYear author_id st p =
          (p.authors.getD []).foldl (processAuthor author_id) st) := by
  intro minYear author_id st p
  refine ⟨?_, ?_, ?_, ?_⟩
  · intro m y hm hy hlt
    simp [processPaper, hm, hy, hlt]
  · intro hy
    simp [processPaper, hy]
  · intro hm
    simp [processPaper, hm]
  · intro m y hm hy hge
    simp [processPaper, hm, hy, not_lt_of_ge hge]

/-! ### Aggregation-state invariants -/

theorem registerCoauthor_mono (nm : List (String × NodeObj)) (i n : String) :
    ∀ x ∈ dkeys nm, x ∈ dkeys (registerCoauthor nm i n) := by
  intro x hx
  unfold registerCoauthor
  split
  · exact hx
  · exact mem_dkeys_dinsert_of_mem _ _ hx

theorem registerCoauthor_self (nm : List (String × NodeObj)) (i n : String) :
    i ∈ dkeys (registerCoauthor nm i n) := by
  unfold registerCoauthor
  split
  case isTrue h => exact (dlookup_isSome_iff nm i).1 h
  case isFalse _ => exact mem_dkeys_dinsert_self _ _ _

theorem registerCoauthor_entries {nm : List (String × NodeObj)}
    {i n : String} {p : String × NodeObj} (h : p ∈ registerCoauthor nm i n) :
    p ∈ nm ∨ p = (i, mkCoNode i n) := by
  unfold registerCoauthor at h
  split at h
  · exact Or.inl h
  · rcases mem_dinsert h with h | h
    · exact Or.inr h
    · exact Or.inl h

theorem registerCoauthor_preserves (nm : List (String × NodeObj))
    (i n k : String) (h : (dlookup nm k).isSome) :
    dlookup (registerCoauthor nm i n) k = dlookup nm k := by
  unfold registerCoauthor
  split
  · rfl
  case isFalse hl => exact dlookup_dinsert_ne nm i _ fun hc => hl (hc ▸ h)

/-- The canonical edge key of two distinct identifiers is strictly ordered. -/
theorem canonKey_lt (u v : String) (h : u ≠ v) :
    ((if strLt v u then (v, u) else (u, v)) : String × String).1
      < (if strLt v u then (v, u) else (u, v)).2 := by
  by_cases hgt : strLt v u = true
  · rw [if_pos hgt]
    exact (strLt_iff v u).1 hgt
  · rw [if_neg hgt]
    have hle : u ≤ v := not_lt.1 fun hc => hgt ((strLt_iff v u).2 hc)
    exact lt_of_le_of_ne hle h

theorem incrEdge_entries {ew : List ((String × String) × Nat)}
    {u v : String} {p : (String × String) × Nat} (h : p ∈ incrEdge ew u v) :
    p ∈ ew ∨ p.1 = (if strLt v u then (v, u) else (u, v)) := by
  unfold incrEdge at h
  rcases mem_dincr h with h | h
  · exact Or.inr h
  · exact Or.inl h

/-- One co-author entry preserves the aggregation invariant, given that the
seed author is registered. -/
theorem processAuthor_phaseInv (ids : List (String × String)) (aid : String)
    (st : AggState) (a : PAuthor) (haid : aid ∈ dkeys st.nm)
    (h : phaseInv ids st) : phaseInv ids (processAuthor aid st a) := by
  obtain ⟨⟨hnm, hew, hnd⟩, hids⟩ := h
  unfold processAuthor
  split
  case isFalse _ => exact ⟨⟨hnm, hew, hnd⟩, hids⟩
  case isTrue hg =>
    show phaseInv ids (AggState.mk
      (registerCoauthor st.nm (a.authorId.getD "") (a.name.getD ""))
      (if ((a.authorId.getD "") != aid) then
        incrEdge st.ew aid (a.authorId.getD "") else st.ew))
    set A := a.authorId.getD "" with hA
    set N := a.name.getD "" with hN
    have hmono : ∀ x ∈ dkeys st.nm, x ∈ dkeys (registerCoauthor st.nm A N) :=
      registerCoauthor_mono st.nm A N
    refine ⟨⟨?_, ?_, ?_⟩, ?_⟩
    · intro p hp
      rcases registerCoauthor_entries hp with hp' | rfl
      · exact hnm p hp'
      · exact Or.inr ⟨N, rfl⟩
    · intro p hp
      by_cases hbne : (A != aid) = true
      · rw [if_pos hbne] at hp
        rcases incrEdge_entries hp with hp' | hkey
        · obtain ⟨h1, h2, h3⟩ := hew p hp'
          exact ⟨h1, hmono _ h2, hmono _ h3⟩
        · have hne : aid ≠ A := fun hc => (bne_iff_ne.1 hbne) hc.symm
          have hlt := canonKey_lt aid A hne
          have hAmem : A ∈ dkeys (registerCoauthor st.nm A N) :=
            registerCoauthor_self st.nm A N
          have haidmem : aid ∈ dkeys (registerCoauthor st.nm A N) :=
            hmono aid haid
          rw [hkey]
          by_cases hgt : strLt A aid = true
          · rw [if_pos hgt] at hlt ⊢
            exact ⟨hlt, hAmem, haidmem⟩
          · rw [if_neg hgt] at hlt ⊢
            exact ⟨hlt, haidmem, hAmem⟩
      · rw [if_neg hbne] at hp
        obtain ⟨h1, h2, h3⟩ := hew p hp
        exact ⟨h1, hmono _ h2, hmono _ h3⟩
    · by_cases hbne : (A != aid) = true
      · rw [if_pos hbne]
        exact nodup_dkeys_dincr _ _ hnd
      · rw [if_neg hbne]
        exact hnd
    · intro e he
      exact hmono _ (hids e he)

/-- One publication preserves the aggregation invariant. -/
theorem processPaper_phaseInv (ids : List (String × String))
    (minYear : Option Int) {e : String × String} (he : e ∈ ids)
    (st : AggState) (p : Paper) (h : phaseInv ids st) :
    phaseInv ids (processPaper minYear e.2 st p) := by
  unfold processPaper
  split
  · exact h
  · exact foldl_preserve (phaseInv ids) (processAuthor e.2)
      (fun st' a h' => processAuthor_phaseInv ids e.2 st' a (h'.2 e he) h')
      _ st h

/-- The whole paper-fetching phase preserves the aggregation invariant. -/
theorem papersPhase_phaseInv (papersO : String → Nat → Option (S2Resp Paper))
    (minYear : Option Int) (ids : List (String × String)) (st0 : AggState)
    (h0 : phaseInv ids st0) :
    phaseInv ids (papersPhase papersO minYear ids st0) := by
  unfold papersPhase
  exact foldl_preserve_mem (phaseInv ids) _ ids
    (fun st e he h => foldl_preserve (phaseInv ids) (processPaper minYear e.2)
      (fun st' p h' => processPaper_phaseInv ids minYear he st' p h') _ st h)
    st0 h0

theorem addUw_foldl_keys_mono (meta : List (String × Candidate))
    (l : List (String × String)) (nm0 : List (String × NodeObj)) (x : String)
    (hx : x ∈ dkeys nm0) :
    x ∈ dkeys (l.foldl
      (fun nm e => dinsert nm e.2 (mkUwNode e.2 e.1 (dlookup meta e.1))) nm0) :=
  foldl_preserve (fun nm => x ∈ dkeys nm) _
    (fun _ _ h => mem_dkeys_dinsert_of_mem _ _ h) l nm0 hx

/-- Every resolved seed identifier is registered by the "Add UW nodes" loop. -/
theorem addUwNodes_covers (ids : List (String × String))
    (meta : List (String × Candidate)) :
    ∀ e ∈ ids, e.2 ∈ dkeys (addUwNodes ids meta) := by
  unfold addUwNodes
  suffices h : ∀ (l : List (String × String)) (nm0 : List (String × NodeObj)),
      ∀ e ∈ l, e.2 ∈ dkeys (l.foldl
        (fun (nm : List (String × NodeObj)) (e : String × String) =>
          dinsert nm e.2 (mkUwNode e.2 e.1 (dlookup meta e.1))) nm0) by
    exact h ids []
  intro l
  induction l with
  | nil => intro nm0 e he; exact absurd he (List.not_mem_nil e)
  | cons b t ih =>
    intro nm0 e he
    rw [List.foldl_cons]
    rcases List.mem_cons.1 he with rfl | he
    · exact addUw_foldl_keys_mono meta t _ _ (mem_dkeys_dinsert_self _ _ _)
    · exact ih _ e he

/-- Every node stored by the "Add UW nodes" loop is a seed node. -/
theorem addUwNodes_nmOK (ids : List (String × String))
    (meta : List (String × Candidate)) :
    ∀ p ∈ addUwNodes ids meta, nodeShaped p.1 p.2 := by
  unfold addUwNodes
  refine foldl_preserve
    (fun (nm : List (String × NodeObj)) => ∀ p ∈ nm, nodeShaped p.1 p.2) _
    (fun nm e h p hp => ?_) ids []
    (fun p hp => absurd hp (List.not_mem_nil p))
  rcases mem_dinsert hp with rfl | hp'
  · exact Or.inl ⟨e.1, dlookup meta e.1, rfl⟩
  · exact h p hp'

/-- The aggregation state at the start of the paper-fetching phase
satisfies the invariant. -/
theorem initState_phaseInv (ids : List (String × String))
    (meta : List (String × Candidate)) :
    phaseInv ids (AggState.mk (addUwNodes ids meta) []) :=
  ⟨⟨addUwNodes_nmOK ids meta,
    fun p hp => absurd hp (List.not_mem_nil p),
    List.nodup_nil⟩,
   fun e he => addUwNodes_covers ids meta e he⟩

/-- Any graph produced by a successful run of `main` is the finalization of
an aggregation state satisfying the invariant. -/
theorem main_ok_state (lines : List String)
    (search : String → Nat → Option (S2Resp Candidate))
    (papersO : String → Nat → Option (S2Resp Paper))
    (minYear : Option Int) (minW : Nat) (g : Graph)
    (h : main lines search papersO minYear minW = Except.ok g) :
    ∃ st : AggState, stInv st ∧ g = finalize st.ew st.nm minW := by
  unfold main at h
  cases hres : resolvePhase search (read_researchers lines) with
  | error e =>
    rw [hres] at h
    exact absurd h (by simp)
  | ok pr =>
    obtain ⟨ids, meta⟩ := pr
    rw [hres] at h
    have h2 : (Except.ok (finalize
        (papersPhase papersO minYear ids
          (AggState.mk (addUwNodes ids meta) [])).ew
        (papersPhase papersO minYear ids
          (AggState.mk (addUwNodes ids meta) [])).nm
        minW) : Except String Graph) = Except.ok g := h
    injection h2 with h3
    refine ⟨papersPhase papersO minYear ids
      (AggState.mk (addUwNodes ids meta) []), ?_, h3.symm⟩
    exact (papersPhase_phaseInv papersO minYear ids _
      (initState_phaseInv ids meta)).1

/-! ### C3: node object fields -/

theorem dlookup_eq_none_of_not_mem {κ β : Type} [DecidableEq κ]
    {m : List (κ × β)} {k : κ} (h : ¬ k ∈ dkeys m) : dlookup m k = none :=
  Option.not_isSome_iff_eq_none.1 fun hs => h ((dlookup_isSome_iff m k).1 hs)

/-- Attaching the degree to a shaped node yields one of the two emitted
field layouts. -/
theorem nodeShaped_setKey_shape {k : String} {nd : NodeObj}
    (h : nodeShaped k nd) (v : JVal) :
    (dkeys (setKey nd "degree" v)
        = ["id", "name", "type", "affiliations", "paperCount", "degree"]
      ∧ getKey (setKey nd "degree" v) "type" = some (.str "uw"))
    ∨ (dkeys (setKey nd "degree" v) = ["id", "name", "type", "degree"]
      ∧ getKey (setKey nd "degree" v) "type" = some (.str "coauthor")) := by
  rcases h with ⟨n, m, rfl⟩ | ⟨n, rfl⟩
  · exact Or.inl ⟨rfl, rfl⟩
  · exact Or.inr ⟨rfl, rfl⟩

/-- C3 (amended): every emitted node object carries the fields id, name,
type and degree, in that order; resolved seed authors have type "uw" and
additionally carry affiliations and paperCount, all other nodes have type
"coauthor" and no further fields; no node carries a "kind" field. -/
theorem c3_node_fields :
    ∀ (lines : List String)
      (search : String → Nat → Option (S2Resp Candidate))
      (papersO : String → Nat → Option (S2Resp Paper))
      (minYear : Option Int) (minW : Nat) (g : Graph),
      main lines search papersO minYear minW = Except.ok g →
      ∀ nd ∈ g.nodes,
        (dkeys nd = ["id", "name", "type", "affiliations", "paperCount",
            "degree"]
          ∧ getKey nd "type" = some (.str "uw") ∧ getKey nd "kind" = none)
        ∨ (dkeys nd = ["id", "name", "type", "degree"]
          ∧ getKey nd "type" = some (.str "coauthor")
          ∧ getKey nd "kind" = none) := by
  intro lines search papersO minYear minW g h nd hnd
  obtain ⟨st, hinv, rfl⟩ := main_ok_state lines search papersO minYear minW g h
  obtain ⟨p, hp, _, rfl⟩ := (finalize_nodes_mem st.ew st.nm minW nd).1 hnd
  rcases nodeShaped_setKey_shape (hinv.1 p hp)
      (.int (degreeOf (finalize st.ew st.nm minW).links (nodeId p.2))) with
    ⟨hkeys, htype⟩ | ⟨hkeys, htype⟩
  · exact Or.inl ⟨hkeys, htype,
      dlookup_eq_none_of_not_mem (by rw [hkeys]; decide)⟩
  · exact Or.inr ⟨hkeys, htype,
      dlookup_eq_none_of_not_mem (by rw [hkeys]; decide)⟩

/-- Counterexample to C3 as stated: in a successful concrete run the emitted
seed node has no "kind" field (the discriminator is called "type" with value
"uw", not "seed"), and a co-author node lacks the affiliations and
paperCount fields the claimed shape requires. -/
theorem c3_counterexample :
    main wLines wSearch wPapers none 2 = Except.ok wGraph
    ∧ (∃ nd ∈ wGraph.nodes,
        getKey nd "kind" = none ∧ getKey nd "type" = some (.str "uw"))
    ∧ (∃ nd ∈ wGraph.nodes,
        getKey nd "affiliations" = none ∧ getKey nd "paperCount" = none) := by
  refine ⟨by decide, by decide, by decide⟩

/-- Witness for C3: the concrete run's Alice node instantiates the amended
field layout. -/
theorem c3_node_fields_witness :
    (dkeys wNodeA = ["id", "name", "type", "affiliations", "paperCount",
        "degree"]
      ∧ getKey wNodeA "type" = some (.str "uw") ∧ getKey wNodeA "kind" = none)
    ∨ (dkeys wNodeA = ["id", "name", "type", "degree"]
      ∧ getKey wNodeA "type" = some (.str "coauthor")
      ∧ getKey wNodeA "kind" = none) :=
  c3_node_fields wLines wSearch wPapers none 2 wGraph (by decide)
    wNodeA (by decide)

/-! ### C4: node records are never overwritten after creation -/

theorem processAuthor_preserves (aid : String) (st : AggState) (a : PAuthor)
    (k : String) (h : (dlookup st.nm k).isSome) :
    dlookup (processAuthor aid st a).nm k = dlookup st.nm k := by
  unfold processAuthor
  split
  · exact registerCoauthor_preserves st.nm _ _ k h
  · rfl

theorem processPaper_preserves (minYear : Option Int) (aid : String)
    (st : AggState) (p : Paper) (k : String) (h : (dlookup st.nm k).isSome) :
    dlookup (processPaper minYear aid st p).nm k = dlookup st.nm k := by
  unfold processPaper
  split
  · rfl
  · refine foldl_preserve
      (fun st' => dlookup st'.nm k = dlookup st.nm k) (processAuthor aid)
      ?_ _ st rfl
    intro st' a h'
    have hs : (dlookup st'.nm k).isSome := by rw [h']; exact h
    rw [processAuthor_preserves aid st' a k hs, h']

theorem papersPhase_preserves (papersO : String → Nat → Option (S2Resp Paper))
    (minYear : Option Int) (ids : List (String × String)) (st0 : AggState)
    (k : String) (h : (dlookup st0.nm k).isSome) :
    dlookup (papersPhase papersO minYear ids st0).nm k = dlookup st0.nm k := by
  unfold papersPhase
  refine foldl_preserve
    (fun st => dlookup st.nm k = dlookup st0.nm k) _ ?_ ids st0 rfl
  intro st e h'
  have hs : (dlookup st.nm k).isSome := by rw [h']; exact h
  have h2 : dlookup ((get_author_papers (papersO e.2)).foldl
      (processPaper minYear e.2) st).nm k = dlookup st.nm k := by
    refine foldl_preserve
      (fun st' => dlookup st'.nm k = dlookup st.nm k) _ ?_ _ st rfl
    intro st' p h''
    have hs' : (dlookup st'.nm k).isSome := by rw [h'']; exact hs
    rw [processPaper_preserves minYear e.2 st' p k hs', h'']
  rw [h2, h']

/-- C4 (amended): once an identifier is registered in the node map, the
whole paper-fetching phase leaves its node record untouched (co-author
occurrences of a seen identifier change nothing), and finalization mutates
each surviving node only by attaching a "degree" field; however, a later
seed identity resolving to an already-seen identifier does overwrite the
node (see the counterexample). -/
theorem c4_node_frame :
    (∀ (papersO : String → Nat → Option (S2Resp Paper))
        (minYear : Option Int) (ids : List (String × String))
        (st0 : AggState) (k : String),
        (dlookup st0.nm k).isSome →
        dlookup (papersPhase papersO minYear ids st0).nm k = dlookup st0.nm k)
    ∧ ∀ (ew : List ((String × String) × Nat)) (nm : List (String × NodeObj))
        (minW : Nat) (nd : NodeObj),
        nd ∈ (finalize ew nm minW).nodes →
        ∃ p ∈ nm, nd = setKey p.2 "degree"
          (.int (degreeOf (finalize ew nm minW).links (nodeId p.2))) := by
  constructor
  · intro papersO minYear ids st0 k h
    exact papersPhase_preserves papersO minYear ids st0 k h
  · intro ew nm minW nd hnd
    obtain ⟨p, hp, _, rfl⟩ := (finalize_nodes_mem ew nm minW nd).1 hnd
    exact ⟨p, hp, rfl⟩

/-- Counterexample to C4 as stated: two seed names resolving to the same
identifier "X" — the second seed ingestion overwrites the node created for
the first (its name changes from "Alice A" to "Bob B"), so a later
observation of an already-seen identifier does mutate the existing record. -/
theorem c4_counterexample :
    dlookup (addUwNodes [("Alice A", "X")] c4meta) "X"
        = some (mkUwNode "X" "Alice A" (some c4cand1))
    ∧ dlookup (addUwNodes [("Alice A", "X"), ("Bob B", "X")] c4meta) "X"
        = some (mkUwNode "X" "Bob B" (some c4cand2))
    ∧ getKey (mkUwNode "X" "Alice A" (some c4cand1)) "name"
        ≠ getKey (mkUwNode "X" "Bob B" (some c4cand2)) "name" := by
  refine ⟨by decide, by decide, by decide⟩

/-- Witness for C4: a pre-registered node "X" survives a concrete
paper-fetching phase unchanged. -/
theorem c4_node_frame_witness :
    dlookup (papersPhase wPapers none [("Alice", "A1")]
        (AggState.mk [("X", mkCoNode "X" "Xan")] [])).nm "X"
      = dlookup ([("X", mkCoNode "X" "Xan")] : List (String × NodeObj)) "X" :=
  c4_node_frame.1 wPapers none [("Alice", "A1")]
    (AggState.mk [("X", mkCoNode "X" "Xan")] []) "X" (by decide)

/-! ### C6: nodes and edges reference each other -/

theorem mem_dkeys_iff {κ β : Type} (m : List (κ × β)) (x : κ) :
    x ∈ dkeys m ↔ ∃ p ∈ m, p.1 = x := by
  simp [dkeys]

/-- C6: in every emitted graph, every node is an endpoint of some emitted
edge, and every endpoint of every emitted edge has a node entry carrying
that identifier. -/
theorem c6_incidence :
    ∀ (lines : List String)
      (search : String → Nat → Option (S2Resp Candidate))
      (papersO : String → Nat → Option (S2Resp Paper))
      (minYear : Option Int) (minW : Nat) (g : Graph),
      main lines search papersO minYear minW = Except.ok g →
      (∀ nd ∈ g.nodes,
        ∃ e ∈ g.links, nodeId nd = e.source ∨ nodeId nd = e.target)
      ∧ ∀ e ∈ g.links,
          (∃ nd ∈ g.nodes, getKey nd "id" = some (.str e.source))
          ∧ ∃ nd ∈ g.nodes, getKey nd "id" = some (.str e.target) := by
  intro lines search papersO minYear minW g h
  obtain ⟨st, hinv, rfl⟩ := main_ok_state lines search papersO minYear minW g h
  constructor
  · intro nd hnd
    exact finalize_node_incident st.ew st.nm minW nd
      (fun p hp => nodeShaped_id (hinv.1 p hp)) hnd
  · intro e he
    have hk := (finalize_links_mem st.ew st.nm minW e).1 he
    obtain ⟨hlt, hsrc, htgt⟩ := hinv.2.1 _ hk.1
    constructor
    · obtain ⟨p, hp, hpx⟩ := (mem_dkeys_iff st.nm e.source).1 hsrc
      refine ⟨setKey p.2 "degree"
        (.int (degreeOf (finalize st.ew st.nm minW).links (nodeId p.2))),
        ?_, ?_⟩
      · exact (finalize_nodes_mem st.ew st.nm minW _).2
          ⟨p, hp, ⟨e, he, Or.inl hpx⟩, rfl⟩
      · rw [getKey_setKey_ne _ _ _ (by decide),
          nodeShaped_id (hinv.1 p hp), hpx]
    · obtain ⟨p, hp, hpx⟩ := (mem_dkeys_iff st.nm e.target).1 htgt
      refine ⟨setKey p.2 "degree"
        (.int (degreeOf (finalize st.ew st.nm minW).links (nodeId p.2))),
        ?_, ?_⟩
      · exact (finalize_nodes_mem st.ew st.nm minW _).2
          ⟨p, hp, ⟨e, he, Or.inr hpx⟩, rfl⟩
      · rw [getKey_setKey_ne _ _ _ (by decide),
          nodeShaped_id (hinv.1 p hp), hpx]

/-- Witness for C6: in the concrete run, the Alice node is incident to an
emitted edge. -/
theorem c6_incidence_witness :
    ∃ e ∈ wGraph.links, nodeId wNodeA = e.source ∨ nodeId wNodeA = e.target :=
  (c6_incidence wLines wSearch wPapers none 2 wGraph (by decide)).1
    wNodeA (by decide)

/-! ### C8: no self-loops -/

/-- C8: no edge of the accumulated edge-weight map, and hence no emitted
edge, joins an identifier to itself. -/
theorem c8_no_self_loops :
    (∀ (lines : List String)
        (search : String → Nat → Option (S2Resp Candidate))
        (papersO : String → Nat → Option (S2Resp Paper))
        (minYear : Option Int) (minW : Nat) (g : Graph),
        main lines search papersO minYear minW = Except.ok g →
        ∀ e ∈ g.links, e.source ≠ e.target)
    ∧ ∀ (papersO : String → Nat → Option (S2Resp Paper))
        (minYear : Option Int) (ids : List (String × String))
        (meta : List (String × Candidate)) (p : (String × String) × Nat),
        p ∈ (papersPhase papersO minYear ids
          (AggState.mk (addUwNodes ids meta) [])).ew →
        p.1.1 ≠ p.1.2 := by
  constructor
  · intro lines search papersO minYear minW g h e he
    obtain ⟨st, hinv, rfl⟩ :=
      main_ok_state lines search papersO minYear minW g h
    exact ne_of_lt
      (hinv.2.1 _ ((finalize_links_mem st.ew st.nm minW e).1 he).1).1
  · intro papersO minYear ids meta p hp
    exact ne_of_lt (((papersPhase_phaseInv papersO minYear ids _
      (initState_phaseInv ids meta)).1).2.1 p hp).1

/-- Witness for C8: the emitted edge (A1, B1) of the concrete run has
distinct endpoints. -/
theorem c8_no_self_loops_witness :
    (EdgeObj.mk "A1" "B1" 2).source ≠ (EdgeObj.mk "A1" "B1" 2).target :=
  c8_no_self_loops.1 wLines wSearch wPapers none 2 wGraph (by decide)
    (EdgeObj.mk "A1" "B1" 2) (by decide)

/-! ### C10: emitted edges are canonically ordered and duplicate-free -/

/-- C10: every emitted edge has its source strictly smaller than its target
(the canonical accumulation order), and no two emitted edges carry the same
endpoint pair. -/
theorem c10_canonical_edges :
    ∀ (lines : List String)
      (search : String → Nat → Option (S2Resp Candidate))
      (papersO : String → Nat → Option (S2Resp Paper))
      (minYear : Option Int) (minW : Nat) (g : Graph),
      main lines search papersO minYear minW = Except.ok g →
      (∀ e ∈ g.links, e.source < e.target)
      ∧ (g.links.map fun e => (e.source, e.target)).Nodup := by
  intro lines search papersO minYear minW g h
  obtain ⟨st, hinv, rfl⟩ := main_ok_state lines search papersO minYear minW g h
  constructor
  · intro e he
    exact (hinv.2.1 _ ((finalize_links_mem st.ew st.nm minW e).1 he).1).1
  · have h1 : ((finalize st.ew st.nm minW).links.map
        fun e => (e.source, e.target))
        = dkeys (st.ew.filter fun e => minW ≤ e.2) := by
      show ((st.ew.filter fun e => minW ≤ e.2).map
          (fun e => EdgeObj.mk e.1.1 e.1.2 e.2)).map (fun e => (e.source, e.target))
        = dkeys (st.ew.filter fun e => minW ≤ e.2)
      rw [List.map_map]
      rfl
    rw [h1]
    exact List.Nodup.sublist
      (List.Sublist.map _ (List.filter_sublist _)) hinv.2.2

/-- Witness for C10: the emitted edge (A1, B1) of the concrete run is
canonically ordered. -/
theorem c10_canonical_edges_witness :
    (EdgeObj.mk "A1" "B1" 2).source < (EdgeObj.mk "A1" "B1" 2).target :=
  (c10_canonical_edges wLines wSearch wPapers none 2 wGraph (by decide)).1
    (EdgeObj.mk "A1" "B1" 2) (by decide)

/-- Witness for C9: a paper from 1999 under a 2000 minimum is dropped, and
one from 2005 is aggregated. -/
theorem c9_year_filter_witness :
    processPaper (some 2000) "A1" (AggState.mk [] []) (Paper.mk (some 1999) (some []))
        = AggState.mk [] []
      ∧ processPaper (some 2000) "A1" (AggState.mk [] [])
          (Paper.mk (some 2005) (some []))
        = ((some ([] : List PAuthor)).getD []).foldl (processAuthor "A1")
            (AggState.mk [] []) := by
  constructor
  · exact (c9_year_filter (some 2000) "A1" (AggState.mk [] [])
      (Paper.mk (some 1999) (some []))).1 2000 1999 rfl rfl (by decide)
  · exact (c9_year_filter (some 2000) "A1" (AggState.mk [] [])
      (Paper.mk (some 2005) (some []))).2.2.2 2000 2005 rfl rfl (by decide)

end BuildGraph
